import Mathlib

/-!
Formal model of the ML spatial error estimator in `spreg/ml_error.py`.

The estimator maximises a concentrated log-likelihood over the spatial
autocorrelation coefficient lambda.  We model the numerical layer over the
real numbers: a numpy operation that would produce NaN or an infinity
(logarithm of a non-positive number, inversion of a singular matrix) is
modelled as `Option.none`, so `some r` means "the code produces the
well-defined real number r".  External numerical oracles (scipy's bounded
scalar minimizer, LAPACK eigenvalue routines, SuperLU factorization) are
modelled as explicit function parameters, since only the use the estimator
makes of their results is under verification here.
-/

namespace SpregML

open Matrix
open scoped Classical

noncomputable section

/-- numpy natural logarithm on reals: `np.log x` is a well-defined real
number exactly when `0 < x` (it is `-inf` at `0` and NaN for negative
input). -/
def npLog (x : ℝ) : Option ℝ :=
  if 0 < x then some (Real.log x) else none

/-- numpy matrix inversion `np.linalg.inv`: raises `LinAlgError` on a
singular matrix, modelled as `none`; otherwise returns the inverse. -/
def npInv {m : ℕ} (M : Matrix (Fin m) (Fin m) ℝ) :
    Option (Matrix (Fin m) (Fin m) ℝ) :=
  if IsUnit M.det then some M⁻¹ else none

/-- numpy `np.fill_diagonal(A, v)`: the matrix `A` with every diagonal entry
replaced by `v`. -/
def fill_diagonal {m : ℕ} (A : Matrix (Fin m) (Fin m) ℝ) (v : ℝ) :
    Matrix (Fin m) (Fin m) ℝ :=
  fun i j => if i = j then v else A i j

/-- Modelled from the spec: `spreg.sputils.spfill_diagonal` (source file not
present here) forces the diagonal of a dense or sparse matrix to a given
value, as in "build a = −lambda·W with diagonal forced to 1". -/
def spfill_diagonal {m : ℕ} (A : Matrix (Fin m) (Fin m) ℝ) (v : ℝ) :
    Matrix (Fin m) (Fin m) ℝ :=
  fun i j => if i = j then v else A i j

/-- Modelled from the spec: `spreg.sputils.spdot` (source file not present
here) is the matrix product, working transparently for dense and sparse
operands. -/
def spdot {m : ℕ} (A B : Matrix (Fin m) (Fin m) ℝ) :
    Matrix (Fin m) (Fin m) ℝ :=
  A * B

/-- Modelled from the spec: `spreg.sputils.spinv` (source file not present
here) inverts a dense or sparse matrix; a singular inversion is a fatal
NumericalError, modelled as `none`. -/
def spinv {m : ℕ} (A : Matrix (Fin m) (Fin m) ℝ) :
    Option (Matrix (Fin m) (Fin m) ℝ) :=
  if IsUnit A.det then some A⁻¹ else none

/-- Modelled from the spec: the Spatial Lag Operator
(`libpysal.weights.lag_spatial`, an external collaborator) returns the
product `W·v` of the weighting structure with a vector. -/
def lag_spatial {n : ℕ} (Wsp : Matrix (Fin n) (Fin n) ℝ) (v : Fin n → ℝ) :
    Fin n → ℝ :=
  Wsp *ᵥ v

/-- Modelled from the spec: the Spatial Lag Operator applied columnwise to a
matrix, `W·X`. -/
def lag_spatialM {n k : ℕ} (Wsp : Matrix (Fin n) (Fin n) ℝ)
    (X : Matrix (Fin n) (Fin k) ℝ) : Matrix (Fin n) (Fin k) ℝ :=
  Wsp * X

/-- Elementwise numpy log of a real array followed by `.sum()`: the result
is a well-defined real number exactly when every entry is positive. -/
def npLogSum {m : ℕ} (v : Fin m → ℝ) : Option ℝ :=
  if ∀ i, 0 < v i then some (∑ i, Real.log (v i)) else none

/-- Elementwise numpy log of the absolute values of a real array followed by
`.sum()` (`np.sum(np.log(np.abs(d)))`): well defined exactly when every
entry is nonzero. -/
def npLogAbsSum {m : ℕ} (d : Fin m → ℝ) : Option ℝ :=
  if ∀ i, d i ≠ 0 then some (∑ i, Real.log |d i|) else none

/-- Elementwise numpy log of a complex array followed by `.sum()` and by
taking the real part (the `isinstance(jacob, complex)` branch of
`err_c_loglik_ord`): well defined exactly when every entry is nonzero. -/
def npLogSumC {m : ℕ} (v : Fin m → ℂ) : Option ℝ :=
  if ∀ i, v i ≠ 0 then some (∑ i, Complex.log (v i)).re else none

/-- Python's `str.upper()` as used at line 180 of the source
(`methodML = method.upper()`); ASCII uppercasing of the method selector. -/
def pyUpper (s : String) : String := ⟨s.data.map Char.toUpper⟩

/-- The trial lambda handed to `err_c_loglik_sp` by the minimizer: either a
plain scalar or a degenerate 1×1 ndarray (the guarded case in the source). -/
inductive LamArg where
  | scalar (v : ℝ)
  | arr11 (v : ℝ)

/-- Unwrapping of the trial lambda performed at the top of
`err_c_loglik_sp`: a 1×1 array is replaced by its interior value. -/
def LamArg.unwrap : LamArg → ℝ
  | .scalar v => v
  | .arr11 v => v

/-- The log-Jacobian of the dense ("full") strategy, lines 561-563 of
`ml_error.py`: `a = -lam * W`, `np.fill_diagonal(a, 1.0)`,
`jacob = np.log(np.linalg.det(a))`.  Note that the source takes no absolute
value of the determinant. -/
def jacobFull {n : ℕ} (lam : ℝ) (W : Matrix (Fin n) (Fin n) ℝ) : Option ℝ :=
  npLog (fill_diagonal (-lam • W) 1).det

/-- The log-Jacobian of the sparse-factorization ("LU") strategy, lines
585-587 of `ml_error.py`: `a = I - lam * Wsp`, factor with SuperLU, then
`np.sum(np.log(np.abs(LU.U.diagonal())))`.  The SuperLU factorization is
abstracted as `splu`, returning the diagonal of the upper factor. -/
def jacobSp {n : ℕ} (splu : Matrix (Fin n) (Fin n) ℝ → Fin n → ℝ)
    (lam : ℝ) (I W : Matrix (Fin n) (Fin n) ℝ) : Option ℝ :=
  npLogAbsSum (splu (I - lam • W))

/-- The log-Jacobian of the eigenvalue ("ord") strategy, lines 606-609 of
`ml_error.py`: `revals = lam * evals`, `jacob = np.log(1 - revals).sum()`,
then the real part is taken when the result is complex.  The eigenvalue
array is a real array (from `eigvalsh`, or from `eigvals` when all
eigenvalues are real) or a complex array. -/
def jacobOrd {n : ℕ} (lam : ℝ) : (Fin n → ℝ) ⊕ (Fin n → ℂ) → Option ℝ
  | Sum.inl evals => npLogSum fun i => 1 - lam * evals i
  | Sum.inr evals => npLogSumC fun i => 1 - (lam : ℂ) * evals i

/-- The shared generalized-least-squares block of the three concentrated
log-likelihood functions (lines 550-560 of `ml_error.py`): filtered
variables, `xsxs` inversion, residual sum of squares `ee`,
`sig2 = ee/n` and `nlsig2 = (n/2)·log(sig2)`. -/
def gls_nlsig2 {n k : ℕ} (lam : ℝ) (nObs : ℕ) (y ylag : Fin n → ℝ)
    (x xlag : Matrix (Fin n) (Fin k) ℝ) : Option ℝ :=
  let ys : Fin n → ℝ := fun i => y i - lam * ylag i
  let xs := x - lam • xlag
  let ysys := ys ⬝ᵥ ys
  let xsxs := xsᵀ * xs
  (npInv xsxs).bind fun xsxsi =>
    let xsys := xsᵀ *ᵥ ys
    let x1 := xsxsi *ᵥ xsys
    let x2 := xsys ⬝ᵥ x1
    let ee := ysys - x2
    let sig2 := ee / (nObs : ℝ)
    (npLog sig2).map fun logsig2 => ((nObs : ℝ) / 2) * logsig2

/-- Concentrated log-likelihood for the error model, brute force
(`err_c_loglik`, lines 548-566): the GLS term minus the dense log-Jacobian.
The returned value is the negative of the concentrated log-likelihood,
for minimization. -/
def err_c_loglik {n k : ℕ} (lam : ℝ) (nObs : ℕ) (y ylag : Fin n → ℝ)
    (x xlag : Matrix (Fin n) (Fin k) ℝ) (W : Matrix (Fin n) (Fin n) ℝ) :
    Option ℝ :=
  (gls_nlsig2 lam nObs y ylag x xlag).bind fun nlsig2 =>
    (jacobFull lam W).map fun jacob => nlsig2 - jacob

/-- Concentrated log-likelihood for the error model, sparse LU
(`err_c_loglik_sp`, lines 569-590): unwraps a 1×1-array lambda, then the
GLS term minus the LU log-Jacobian. -/
def err_c_loglik_sp {n k : ℕ} (splu : Matrix (Fin n) (Fin n) ℝ → Fin n → ℝ)
    (lamArg : LamArg) (nObs : ℕ) (y ylag : Fin n → ℝ)
    (x xlag : Matrix (Fin n) (Fin k) ℝ) (I W : Matrix (Fin n) (Fin n) ℝ) :
    Option ℝ :=
  let lam := lamArg.unwrap
  (gls_nlsig2 lam nObs y ylag x xlag).bind fun nlsig2 =>
    (jacobSp splu lam I W).map fun jacob => nlsig2 - jacob

/-- Concentrated log-likelihood for the error model, Ord eigenvalues
(`err_c_loglik_ord`, lines 593-612): the GLS term minus the eigenvalue
log-Jacobian computed from the precomputed eigenvalue array. -/
def err_c_loglik_ord {n k : ℕ} (lam : ℝ) (nObs : ℕ) (y ylag : Fin n → ℝ)
    (x xlag : Matrix (Fin n) (Fin k) ℝ)
    (evals : (Fin n → ℝ) ⊕ (Fin n → ℂ)) : Option ℝ :=
  (gls_nlsig2 lam nObs y ylag x xlag).bind fun nlsig2 =>
    (jacobOrd lam evals).map fun jacob => nlsig2 - jacob

/-- Result record of scipy's `minimize_scalar` as consumed by the source:
the argmin `x`, the minimized value `fun`, and the convergence flag
`success`.  The source reads `res.x` and `res.fun`. -/
structure OptResult where
  xmin : ℝ
  fval : ℝ
  success : Bool

/-- The external numerical routines used by `BaseML_Error.__init__`,
abstracted as function parameters: the bounded scalar minimizer over the
(possibly failing) objective, the symmetric and the general eigenvalue
routines (`la.eigvalsh` returns a real array; `la.eigvals` returns a real
array when every eigenvalue is real and a complex array otherwise), and the
SuperLU factorization exposing the diagonal of its upper factor. -/
structure Oracles (n : ℕ) where
  minimize : (ℝ → Option ℝ) → OptResult
  eigvalsh : Matrix (Fin n) (Fin n) ℝ → Fin n → ℝ
  eigvals : Matrix (Fin n) (Fin n) ℝ → (Fin n → ℝ) ⊕ (Fin n → ℂ)
  splu : Matrix (Fin n) (Fin n) ℝ → Fin n → ℝ

/-- The spatial weighting structure as the capabilities the source consumes:
a dense materialization `w.full()[0]`, a sparse materialization `w.sparse`
(the same matrix in sparse storage), the dense symmetrized matrix
`np.array(symmetrize(w).todense())`, and the structural-symmetry test
`w.asymmetry(intrinsic=False) == []`. -/
structure WStruct (n : ℕ) where
  dense : Matrix (Fin n) (Fin n) ℝ
  sparse : Matrix (Fin n) (Fin n) ℝ
  symmetrized : Matrix (Fin n) (Fin n) ℝ
  structSym : Bool

/-- Error outcomes of an estimation run, named after the spec's error
taxonomy: `configurationError` is the `Exception` raised for an unsupported
method string (line 223), `numericalError` is numpy's `LinAlgError` from a
singular inversion, and `optimizationError` is the spec's name for optimizer
non-convergence (no code path in the source produces it). -/
inductive Err where
  | configurationError (method : String)
  | numericalError
  | optimizationError
deriving DecidableEq

/-- The GLS coefficient vector solved at a given lambda (lines 235-240):
`b = (xsᵀxs)⁻¹ xsᵀ ys` with filtered `ys`, `xs`. -/
def glsB {n k : ℕ} (lam : ℝ) (y ylag : Fin n → ℝ)
    (x xlag : Matrix (Fin n) (Fin k) ℝ) : Fin k → ℝ :=
  ((x - lam • xlag)ᵀ * (x - lam • xlag))⁻¹ *ᵥ
    ((x - lam • xlag)ᵀ *ᵥ fun i => y i - lam * ylag i)

/-- Raw residuals at a given lambda (line 244): `u = y - x·b` with the
unfiltered `x`. -/
def uOf {n k : ℕ} (lam : ℝ) (y ylag : Fin n → ℝ)
    (x xlag : Matrix (Fin n) (Fin k) ℝ) : Fin n → ℝ :=
  fun i => y i - (x *ᵥ glsB lam y ylag x xlag) i

/-- Spatially filtered residuals at a given lambda (line 249):
`e = u - lam·(W·u)` with the original weighting structure. -/
def eOf {n k : ℕ} (w : WStruct n) (lam : ℝ) (y ylag : Fin n → ℝ)
    (x xlag : Matrix (Fin n) (Fin k) ℝ) : Fin n → ℝ :=
  fun i => uOf lam y ylag x xlag i -
    lam * lag_spatial w.sparse (uOf lam y ylag x xlag) i

/-- Residual variance at a given lambda (line 250): `sig2 = (eᵀe)/n`. -/
def sig2Of {n k : ℕ} (w : WStruct n) (lam : ℝ) (y ylag : Fin n → ℝ)
    (x xlag : Matrix (Fin n) (Fin k) ℝ) : ℝ :=
  (eOf w lam y ylag x xlag ⬝ᵥ eOf w lam y ylag x xlag) / (n : ℝ)

/-- The 2×2 information matrix of (lambda, sigma²) built at lines 258-273
from the strategy-dependent matrix `Wc`: with `a = -lam·Wc` diagonal forced
to 1 and `wai = Wc·a⁻¹`, the matrix
`[[tr2+tr3, tr1/sig2], [tr1/sig2, n/(2·sig2²)]]`. -/
def vOf {n : ℕ} (Wc : Matrix (Fin n) (Fin n) ℝ) (lam sig2 : ℝ) :
    Matrix (Fin 2) (Fin 2) ℝ :=
  let wai := spdot Wc (spfill_diagonal (-lam • Wc) 1)⁻¹
  !![(spdot wai wai).trace + (spdot waiᵀ wai).trace, wai.trace / sig2;
     wai.trace / sig2, (n : ℝ) / (2 * sig2 ^ 2)]

/-- Block assembly of the full (k+1)×(k+1) covariance matrix (lines
277-281): top-left k×k block `varb`, bottom-right scalar `lamVar`, all
beta/lambda cross-terms zero. -/
def vmBlock {k : ℕ} (varb : Matrix (Fin k) (Fin k) ℝ) (lamVar : ℝ) :
    Matrix (Fin (k + 1)) (Fin (k + 1)) ℝ :=
  fun i j =>
    if hi : (i : ℕ) < k then
      if hj : (j : ℕ) < k then varb ⟨i, hi⟩ ⟨j, hj⟩ else 0
    else if (j : ℕ) < k then 0 else lamVar

/-- Results of `BaseML_Error.__init__` consumed downstream. -/
structure Estimates (n k : ℕ) where
  lam : ℝ
  logll : ℝ
  betas : Fin (k + 1) → ℝ
  u : Fin n → ℝ
  predy : Fin n → ℝ
  e_filtered : Fin n → ℝ
  sig2 : ℝ
  vm1 : Matrix (Fin 2) (Fin 2) ℝ
  vm : Matrix (Fin (k + 1)) (Fin (k + 1)) ℝ

/-- The post-optimization tail of `BaseML_Error.__init__` (lines 225-281):
full log-likelihood reconstruction, final GLS coefficients, residuals,
filtered residuals, residual variance, and the covariance assembly from the
strategy-dependent matrix `Wcov`.  A singular inversion gives `none`. -/
def finalize {n k : ℕ} (w : WStruct n) (Wcov : Matrix (Fin n) (Fin n) ℝ)
    (res : OptResult) (y : Fin n → ℝ) (x xlag : Matrix (Fin n) (Fin k) ℝ)
    (ylag : Fin n → ℝ) : Option (Estimates n k) :=
  let lam := res.xmin
  let logll := -res.fval - (n : ℝ) / 2 * Real.log (2 * Real.pi) - (n : ℝ) / 2
  let ys : Fin n → ℝ := fun i => y i - lam * ylag i
  let xs := x - lam • xlag
  let xsxs := xsᵀ * xs
  (npInv xsxs).bind fun xsxsi =>
    let xsys := xsᵀ *ᵥ ys
    let b := xsxsi *ᵥ xsys
    let betas := Fin.snoc b lam
    let u := fun i => y i - (x *ᵥ b) i
    let predy := fun i => y i - u i
    let e := fun i => u i - lam * lag_spatial w.sparse u i
    let sig2 := (e ⬝ᵥ e) / (n : ℝ)
    let varb := sig2 • xsxsi
    let a := spfill_diagonal (-lam • Wcov) 1
    (spinv a).bind fun ai =>
      let wai := spdot Wcov ai
      let tr1 := wai.trace
      let tr2 := (spdot wai wai).trace
      let tr3 := (spdot waiᵀ wai).trace
      let v : Matrix (Fin 2) (Fin 2) ℝ :=
        !![tr2 + tr3, tr1 / sig2; tr1 / sig2, (n : ℝ) / (2 * sig2 ^ 2)]
      (npInv v).map fun vm1 =>
        { lam := lam, logll := logll, betas := betas, u := u, predy := predy,
          e_filtered := e, sig2 := sig2, vm1 := vm1,
          vm := vmBlock varb (vm1 0 0) }

/-- The whole of `BaseML_Error.__init__` (lines 162-281, non-regimes path):
spatial lags, case-insensitive method dispatch with its per-strategy
auxiliary setup and choice of the matrix kept for the covariance step, the
scalar minimization, and the finalization.  An unsupported method string is
the `Exception` of line 223. -/
def baseMLInit {n k : ℕ} (o : Oracles n) (w : WStruct n) (y : Fin n → ℝ)
    (x : Matrix (Fin n) (Fin k) ℝ) (method : String) :
    Except Err (Estimates n k) :=
  let ylag := lag_spatial w.sparse y
  let xlag := lag_spatialM w.sparse x
  let methodML := pyUpper method
  if methodML = "FULL" ∨ methodML = "LU" ∨ methodML = "ORD" then
    let WR : Matrix (Fin n) (Fin n) ℝ × OptResult :=
      if methodML = "FULL" then
        (w.dense, o.minimize fun lam => err_c_loglik lam n y ylag x xlag w.dense)
      else if methodML = "LU" then
        (w.sparse, o.minimize fun lam =>
          err_c_loglik_sp o.splu (LamArg.scalar lam) n y ylag x xlag 1 w.sparse)
      else if w.structSym then
        (w.symmetrized, o.minimize fun lam =>
          err_c_loglik_ord lam n y ylag x xlag (Sum.inl (o.eigvalsh w.symmetrized)))
      else
        (w.dense, o.minimize fun lam =>
          err_c_loglik_ord lam n y ylag x xlag (o.eigvals w.dense))
    match finalize w WR.1 WR.2 y x xlag ylag with
    | some est => Except.ok est
    | none => Except.error Err.numericalError
  else
    Except.error (Err.configurationError method)

/-- The eigenvalue array precomputed once by the "ord" branch (lines
204-213): symmetric eigenvalues of the symmetrized matrix when the
structure is symmetric apart from representation, general eigenvalues of
the dense matrix otherwise. -/
def ordEvals {n : ℕ} (o : Oracles n) (w : WStruct n) :
    (Fin n → ℝ) ⊕ (Fin n → ℂ) :=
  if w.structSym then Sum.inl (o.eigvalsh w.symmetrized) else o.eigvals w.dense

/-- The "ord" branch of `BaseML_Error.__init__` written with its one-time
eigenvalue precomputation made explicit: the eigenvalues `ordEvals o w` are
bound once, outside the objective closure handed to the minimizer. -/
def ordRun {n k : ℕ} (o : Oracles n) (w : WStruct n) (y : Fin n → ℝ)
    (x : Matrix (Fin n) (Fin k) ℝ) : Except Err (Estimates n k) :=
  let ylag := lag_spatial w.sparse y
  let xlag := lag_spatialM w.sparse x
  let evals := ordEvals o w
  let Wc := if w.structSym then w.symmetrized else w.dense
  let res := o.minimize fun lam => err_c_loglik_ord lam n y ylag x xlag evals
  match finalize w Wc res y x xlag ylag with
  | some est => Except.ok est
  | none => Except.error Err.numericalError

/-- The strategy-dependent materialization of the weighting structure that
the covariance step receives (the variable `W` of lines 183, 203, 210,
212). -/
def covW {n : ℕ} (w : WStruct n) (methodML : String) :
    Matrix (Fin n) (Fin n) ℝ :=
  if methodML = "FULL" then w.dense
  else if methodML = "LU" then w.sparse
  else if w.structSym then w.symmetrized
  else w.dense

/-- Extractor for the estimated lambda of a finished run. -/
def lamOf {n k : ℕ} : Except Err (Estimates n k) → Option ℝ
  | .ok est => some est.lam
  | .error _ => none

/-- Modelled from the spec: the true concentrated log-likelihood up to
additive constants, `jacobian − (n/2)·log(sigma²)`; the source returns its
negative because the optimizer minimizes. -/
def concLoglikSpec (nObs : ℕ) (sig2 jacob : ℝ) : ℝ :=
  jacob - ((nObs : ℝ) / 2) * Real.log sig2

/-- The residual quantity `ee = ysᵀys − (xsᵀys)ᵀ(xsᵀxs)⁻¹(xsᵀys)` computed
by the concentrated log-likelihood functions (lines 552-558). -/
def eeVal {n k : ℕ} (lam : ℝ) (y ylag : Fin n → ℝ)
    (x xlag : Matrix (Fin n) (Fin k) ℝ) : ℝ :=
  let ys : Fin n → ℝ := fun i => y i - lam * ylag i
  let xs := x - lam • xlag
  ys ⬝ᵥ ys - (xsᵀ *ᵥ ys) ⬝ᵥ (((xsᵀ * xs)⁻¹) *ᵥ (xsᵀ *ᵥ ys))

/-- A concrete outcome vector for sample computations: n = 2. -/
def yW : Fin 2 → ℝ := ![1, 2]

/-- A concrete design matrix (a lone intercept column): k = 1. -/
def xW : Matrix (Fin 2) (Fin 1) ℝ := !![1; 1]

/-- A concrete symmetric weighting structure on two observations. -/
def wSym : WStruct 2 :=
  { dense := !![0, 1; 1, 0], sparse := !![0, 1; 1, 0],
    symmetrized := !![0, 1; 1, 0], structSym := true }

/-- A concrete weighting structure with asymmetric weights on a symmetric
binary structure; its symmetrized materialization differs from its dense
one. -/
def wOrd : WStruct 2 :=
  { dense := !![0, 1; (1 : ℝ)/4, 0], sparse := !![0, 1; (1 : ℝ)/4, 0],
    symmetrized := !![0, (1 : ℝ)/2; (1 : ℝ)/2, 0], structSym := true }

/-- Concrete oracles whose minimizer reports convergence at lambda = 0. -/
def oGood : Oracles 2 :=
  { minimize := fun _ => { xmin := 0, fval := 0, success := true },
    eigvalsh := fun _ => ![1, -1],
    eigvals := fun _ => Sum.inl ![1, -1],
    splu := fun _ => ![1, (3 : ℝ)/4] }

/-- Concrete oracles whose minimizer reports NON-convergence (success is
false) while still returning lambda = 0 as its last iterate. -/
def oFail : Oracles 2 :=
  { minimize := fun _ => { xmin := 0, fval := 0, success := false },
    eigvalsh := fun _ => ![1, -1],
    eigvals := fun _ => Sum.inl ![1, -1],
    splu := fun _ => ![1, (3 : ℝ)/4] }

/-- The record of final estimates produced by a successful `finalize` run,
written with the named quantities `glsB`, `uOf`, `eOf`, `sig2Of`, `vOf` and
`vmBlock`. -/
def estOf {n k : ℕ} (w : WStruct n) (Wcov : Matrix (Fin n) (Fin n) ℝ)
    (res : OptResult) (y : Fin n → ℝ) (x xlag : Matrix (Fin n) (Fin k) ℝ)
    (ylag : Fin n → ℝ) : Estimates n k :=
  { lam := res.xmin,
    logll := -res.fval - (n : ℝ) / 2 * Real.log (2 * Real.pi) - (n : ℝ) / 2,
    betas := Fin.snoc (glsB res.xmin y ylag x xlag) res.xmin,
    u := uOf res.xmin y ylag x xlag,
    predy := fun i => y i - uOf res.xmin y ylag x xlag i,
    e_filtered := eOf w res.xmin y ylag x xlag,
    sig2 := sig2Of w res.xmin y ylag x xlag,
    vm1 := (vOf Wcov res.xmin (sig2Of w res.xmin y ylag x xlag))⁻¹,
    vm := vmBlock
      (sig2Of w res.xmin y ylag x xlag •
        ((x - res.xmin • xlag)ᵀ * (x - res.xmin • xlag))⁻¹)
      ((vOf Wcov res.xmin (sig2Of w res.xmin y ylag x xlag))⁻¹ 0 0) }

end

/-! Helper lemmas. -/

lemma vecMul_eq_transpose_mulVec {n k : ℕ} (X : Matrix (Fin n) (Fin k) ℝ)
    (v : Fin n → ℝ) : v ᵥ* X = Xᵀ *ᵥ v := by
  rw [← transpose_transpose X, vecMul_transpose, transpose_transpose]

lemma normal_solve {n k : ℕ} (X : Matrix (Fin n) (Fin k) ℝ) (g : Fin k → ℝ)
    (h : IsUnit (Xᵀ * X).det) :
    (Xᵀ * X) *ᵥ ((Xᵀ * X)⁻¹ *ᵥ g) = g := by
  rw [mulVec_mulVec, Matrix.mul_nonsing_inv _ h, one_mulVec]

/-- The quantity `ee = ysᵀys − (xsᵀys)ᵀ b` computed by the source is the
residual sum of squares of the GLS fit. -/
lemma ee_eq_rss {n k : ℕ} (X : Matrix (Fin n) (Fin k) ℝ) (y : Fin n → ℝ)
    (h : IsUnit (Xᵀ * X).det) :
    (y - X *ᵥ ((Xᵀ * X)⁻¹ *ᵥ (Xᵀ *ᵥ y))) ⬝ᵥ (y - X *ᵥ ((Xᵀ * X)⁻¹ *ᵥ (Xᵀ *ᵥ y)))
      = y ⬝ᵥ y - (Xᵀ *ᵥ y) ⬝ᵥ ((Xᵀ * X)⁻¹ *ᵥ (Xᵀ *ᵥ y)) := by
  set g := Xᵀ *ᵥ y with hg
  set b := (Xᵀ * X)⁻¹ *ᵥ g with hb
  have hvm : (X *ᵥ b) ᵥ* X = g := by
    rw [vecMul_eq_transpose_mulVec, mulVec_mulVec, hb, normal_solve X g h]
  have hXb : (X *ᵥ b) ⬝ᵥ (X *ᵥ b) = g ⬝ᵥ b := by
    rw [dotProduct_mulVec, hvm]
  have hyXb : y ⬝ᵥ (X *ᵥ b) = g ⬝ᵥ b := by
    rw [dotProduct_mulVec, vecMul_eq_transpose_mulVec]
  have hXby : (X *ᵥ b) ⬝ᵥ y = g ⬝ᵥ b := by
    rw [dotProduct_comm, hyXb]
  rw [sub_dotProduct, dotProduct_sub, dotProduct_sub, hXb, hyXb, hXby]
  ring

lemma abs_det_submatrix_perm {n : ℕ} (A : Matrix (Fin n) (Fin n) ℝ)
    (σ τ : Equiv.Perm (Fin n)) :
    |(A.submatrix σ τ).det| = |A.det| := by
  have h1 : A.submatrix ⇑σ ⇑τ = (A.submatrix id ⇑τ).submatrix ⇑σ id := rfl
  have h2 : A.submatrix id ⇑τ = ((Aᵀ.submatrix ⇑τ id)ᵀ) := by
    ext i j
    simp [Matrix.submatrix, Matrix.transpose_apply]
  have h3 : |(↑↑(Equiv.Perm.sign σ) : ℝ)| = 1 := by
    rcases Int.units_eq_one_or (Equiv.Perm.sign σ) with h | h <;> rw [h] <;> norm_num
  have h4 : |(↑↑(Equiv.Perm.sign τ) : ℝ)| = 1 := by
    rcases Int.units_eq_one_or (Equiv.Perm.sign τ) with h | h <;> rw [h] <;> norm_num
  rw [h1, Matrix.det_permute, h2, abs_mul, Matrix.det_transpose,
    Matrix.det_permute, Matrix.det_transpose, abs_mul, h3, h4]
  ring

/-- Sum of the logs of the absolute diagonal entries of the upper factor of
a row/column-permuted triangular factorization equals the log of the
absolute determinant of the factored matrix. -/
lemma sum_log_U_diag {n : ℕ} (A L U : Matrix (Fin n) (Fin n) ℝ)
    (σ τ : Equiv.Perm (Fin n))
    (hL : ∀ i j : Fin n, i < j → L i j = 0) (hLd : ∀ i, L i i = 1)
    (hU : ∀ i j : Fin n, j < i → U i j = 0)
    (hfact : A.submatrix ⇑σ ⇑τ = L * U)
    (hdet : A.det ≠ 0) :
    ∑ i, Real.log |U i i| = Real.log |A.det| := by
  have hUt : U.BlockTriangular id := fun i j h => hU i j h
  have hLt : L.BlockTriangular ⇑OrderDual.toDual := fun i j h => hL i j h
  have hdetU : U.det = ∏ i, U i i := Matrix.det_of_upperTriangular hUt
  have hdetL : L.det = 1 := by
    rw [Matrix.det_of_lowerTriangular L hLt]
    simp [hLd]
  have habs : |A.det| = ∏ i, |U i i| := by
    have h2 : (A.submatrix ⇑σ ⇑τ).det = U.det := by
      rw [hfact, Matrix.det_mul, hdetL, one_mul]
    rw [← abs_det_submatrix_perm A σ τ, h2, hdetU, Finset.abs_prod]
  have hne : ∀ i ∈ Finset.univ, |U i i| ≠ (0 : ℝ) := by
    have hprod : (∏ i, |U i i|) ≠ 0 := by
      rw [← habs]
      exact abs_ne_zero.mpr hdet
    exact fun i hi => Finset.prod_ne_zero_iff.mp hprod i hi
  rw [habs, Real.log_prod _ _ hne]

/-- Successful evaluation of the shared GLS block: when `xsᵀxs` is
invertible and the residual variance is positive, it yields
`(n/2)·log(ee/n)`. -/
lemma gls_nlsig2_eq {n k : ℕ} (lam : ℝ) (nObs : ℕ) (y ylag : Fin n → ℝ)
    (x xlag : Matrix (Fin n) (Fin k) ℝ)
    (h1 : IsUnit ((x - lam • xlag)ᵀ * (x - lam • xlag)).det)
    (hs : 0 < eeVal lam y ylag x xlag / (nObs : ℝ)) :
    gls_nlsig2 lam nObs y ylag x xlag
      = some (((nObs : ℝ) / 2) *
          Real.log (eeVal lam y ylag x xlag / (nObs : ℝ))) := by
  have hs' := hs
  unfold eeVal at hs'
  try dsimp only at hs'
  unfold gls_nlsig2 npInv npLog
  try dsimp only
  rw [if_pos h1]
  simp only [Option.some_bind]
  try dsimp only
  rw [if_pos hs']
  unfold eeVal
  try dsimp only
  rfl

/-- The GLS block fails (numpy `LinAlgError`) when `xsᵀxs` is singular. -/
lemma gls_nlsig2_none {n k : ℕ} (lam : ℝ) (nObs : ℕ) (y ylag : Fin n → ℝ)
    (x xlag : Matrix (Fin n) (Fin k) ℝ)
    (h1 : ¬ IsUnit ((x - lam • xlag)ᵀ * (x - lam • xlag)).det) :
    gls_nlsig2 lam nObs y ylag x xlag = none := by
  unfold gls_nlsig2 npInv
  try dsimp only
  rw [if_neg h1]
  rfl

/-- Successful evaluation of the post-optimization tail: when the three
inversions succeed, `finalize` produces exactly the record of final
estimates described by `glsB`, `uOf`, `eOf`, `sig2Of`, `vOf` and
`vmBlock`. -/
lemma finalize_eq {n k : ℕ} (w : WStruct n) (Wcov : Matrix (Fin n) (Fin n) ℝ)
    (res : OptResult) (y : Fin n → ℝ) (x xlag : Matrix (Fin n) (Fin k) ℝ)
    (ylag : Fin n → ℝ)
    (h1 : IsUnit ((x - res.xmin • xlag)ᵀ * (x - res.xmin • xlag)).det)
    (h2 : IsUnit (spfill_diagonal (-res.xmin • Wcov) 1).det)
    (h3 : IsUnit (vOf Wcov res.xmin (sig2Of w res.xmin y ylag x xlag)).det) :
    finalize w Wcov res y x xlag ylag = some (estOf w Wcov res y x xlag ylag) := by
  have h3' := h3
  unfold vOf sig2Of eOf uOf glsB at h3'
  try dsimp only at h3'
  unfold finalize npInv spinv estOf
  try dsimp only
  rw [if_pos h1]
  simp only [Option.some_bind]
  try dsimp only
  rw [if_pos h2]
  simp only [Option.some_bind]
  try dsimp only
  rw [if_pos h3']
  simp only [Option.map_some']
  rfl

/-- Dispatch reduction: the "full" branch of `BaseML_Error.__init__`. -/
lemma baseMLInit_full {n k : ℕ} (o : Oracles n) (w : WStruct n)
    (y : Fin n → ℝ) (x : Matrix (Fin n) (Fin k) ℝ) (method : String)
    (hm : pyUpper method = "FULL") :
    baseMLInit o w y x method
      = match finalize w w.dense
          (o.minimize fun lam => err_c_loglik lam n y (lag_spatial w.sparse y)
            x (lag_spatialM w.sparse x) w.dense)
          y x (lag_spatialM w.sparse x) (lag_spatial w.sparse y) with
        | some est => Except.ok est
        | none => Except.error Err.numericalError := by
  unfold baseMLInit
  try dsimp only
  rw [hm]
  rw [if_pos (Or.inl rfl)]
  rw [if_pos rfl]

/-- Dispatch reduction: the "LU" branch of `BaseML_Error.__init__`. -/
lemma baseMLInit_lu {n k : ℕ} (o : Oracles n) (w : WStruct n)
    (y : Fin n → ℝ) (x : Matrix (Fin n) (Fin k) ℝ) (method : String)
    (hm : pyUpper method = "LU") :
    baseMLInit o w y x method
      = match finalize w w.sparse
          (o.minimize fun lam => err_c_loglik_sp o.splu (LamArg.scalar lam) n y
            (lag_spatial w.sparse y) x (lag_spatialM w.sparse x) 1 w.sparse)
          y x (lag_spatialM w.sparse x) (lag_spatial w.sparse y) with
        | some est => Except.ok est
        | none => Except.error Err.numericalError := by
  unfold baseMLInit
  try dsimp only
  rw [hm]
  rw [if_pos (Or.inr (Or.inl rfl))]
  rw [if_neg (by decide), if_pos rfl]

/-- Dispatch reduction: the "ord" branch of `BaseML_Error.__init__` equals
`ordRun`, in which the eigenvalues are computed a single time before the
minimization. -/
lemma baseMLInit_ord {n k : ℕ} (o : Oracles n) (w : WStruct n)
    (y : Fin n → ℝ) (x : Matrix (Fin n) (Fin k) ℝ) (method : String)
    (hm : pyUpper method = "ORD") :
    baseMLInit o w y x method = ordRun o w y x := by
  unfold baseMLInit ordRun ordEvals
  try dsimp only
  rw [hm]
  rw [if_pos (Or.inr (Or.inr rfl))]
  rw [if_neg (by decide), if_neg (by decide)]
  by_cases hsym : w.structSym
  · rw [if_pos hsym, if_pos hsym, if_pos hsym]
  · rw [if_neg hsym, if_neg hsym, if_neg hsym]

/-! Simplifications at lambda = 0 and concrete sample computations. -/

lemma sub_zero_smul_mat {n k : ℕ} (x xlag : Matrix (Fin n) (Fin k) ℝ) :
    x - (0 : ℝ) • xlag = x := by
  simp

lemma glsB_zero {n k : ℕ} (y ylag : Fin n → ℝ)
    (x xlag : Matrix (Fin n) (Fin k) ℝ) :
    glsB 0 y ylag x xlag = (xᵀ * x)⁻¹ *ᵥ (xᵀ *ᵥ y) := by
  unfold glsB
  rw [sub_zero_smul_mat x xlag]
  simp

lemma eOf_zero {n k : ℕ} (w : WStruct n) (y ylag : Fin n → ℝ)
    (x xlag : Matrix (Fin n) (Fin k) ℝ) :
    eOf w 0 y ylag x xlag = uOf 0 y ylag x xlag := by
  funext i
  unfold eOf
  simp

lemma sig2Of_zero {n k : ℕ} (w : WStruct n) (y ylag : Fin n → ℝ)
    (x xlag : Matrix (Fin n) (Fin k) ℝ) :
    sig2Of w 0 y ylag x xlag
      = (uOf 0 y ylag x xlag ⬝ᵥ uOf 0 y ylag x xlag) / (n : ℝ) := by
  unfold sig2Of
  rw [eOf_zero]

lemma spfill_zero {n : ℕ} (Wc : Matrix (Fin n) (Fin n) ℝ) :
    spfill_diagonal (-(0 : ℝ) • Wc) 1 = 1 := by
  ext i j
  unfold spfill_diagonal
  by_cases h : i = j
  · simp [h, Matrix.one_apply]
  · simp [h, Matrix.one_apply]

lemma vOf_zero {n : ℕ} (Wc : Matrix (Fin n) (Fin n) ℝ) (s : ℝ) :
    vOf Wc 0 s = !![(Wc * Wc).trace + (Wcᵀ * Wc).trace, Wc.trace / s;
                    Wc.trace / s, (n : ℝ) / (2 * s ^ 2)] := by
  unfold vOf spdot
  rw [spfill_zero, inv_one, mul_one]

lemma xWtxW : xWᵀ * xW = !![(2 : ℝ)] := by
  ext i j
  fin_cases i
  fin_cases j
  norm_num [xW, Matrix.mul_apply, Fin.sum_univ_two, Matrix.transpose_apply,
    Matrix.vecHead, Matrix.vecTail]

lemma inv_two_fin_one : (!![(2 : ℝ)])⁻¹ = !![1/2] := by
  apply Matrix.inv_eq_right_inv
  ext i j
  fin_cases i
  fin_cases j
  norm_num [Matrix.mul_apply, Fin.sum_univ_one, Matrix.one_apply,
    Matrix.vecHead, Matrix.vecTail]

lemma xW_unit (xlag : Matrix (Fin 2) (Fin 1) ℝ) :
    IsUnit ((xW - (0 : ℝ) • xlag)ᵀ * (xW - (0 : ℝ) • xlag)).det := by
  rw [sub_zero_smul_mat, xWtxW, Matrix.det_fin_one]
  apply isUnit_iff_ne_zero.mpr
  norm_num [Matrix.vecHead, Matrix.vecTail]

lemma glsB_concrete (ylag : Fin 2 → ℝ) (xlag : Matrix (Fin 2) (Fin 1) ℝ) :
    glsB 0 yW ylag xW xlag = ![3/2] := by
  rw [glsB_zero, xWtxW, inv_two_fin_one]
  funext j
  fin_cases j
  norm_num [Matrix.mulVec, Matrix.dotProduct, Fin.sum_univ_two, Fin.sum_univ_one,
    xW, yW, Matrix.transpose_apply, Matrix.vecHead, Matrix.vecTail]

lemma uOf_concrete (ylag : Fin 2 → ℝ) (xlag : Matrix (Fin 2) (Fin 1) ℝ) :
    uOf 0 yW ylag xW xlag = ![-(1/2), 1/2] := by
  unfold uOf
  rw [glsB_concrete]
  funext i
  fin_cases i <;>
    norm_num [Matrix.mulVec, Matrix.dotProduct, Fin.sum_univ_one, xW, yW,
      Matrix.vecHead, Matrix.vecTail]

lemma sig2_concrete (w : WStruct 2) (ylag : Fin 2 → ℝ)
    (xlag : Matrix (Fin 2) (Fin 1) ℝ) :
    sig2Of w 0 yW ylag xW xlag = 1/4 := by
  rw [sig2Of_zero, uOf_concrete]
  norm_num [Matrix.dotProduct, Fin.sum_univ_two, Matrix.vecHead, Matrix.vecTail]

lemma vSym_concrete :
    vOf wSym.dense 0 (1/4) = !![(4 : ℝ), 0; 0, 16] := by
  rw [vOf_zero]
  have h1 : wSym.dense * wSym.dense = 1 := by
    ext i j
    fin_cases i <;> fin_cases j <;>
      norm_num [wSym, Matrix.mul_apply, Fin.sum_univ_two, Matrix.one_apply,
        Matrix.vecHead, Matrix.vecTail]
  have h2 : wSym.denseᵀ * wSym.dense = 1 := by
    ext i j
    fin_cases i <;> fin_cases j <;>
      norm_num [wSym, Matrix.mul_apply, Fin.sum_univ_two, Matrix.one_apply,
        Matrix.transpose_apply, Matrix.vecHead, Matrix.vecTail]
  have h3 : wSym.dense.trace = 0 := by
    rw [Matrix.trace_fin_two]
    norm_num [wSym, Matrix.vecHead, Matrix.vecTail]
  rw [h1, h2, h3]
  have h4 : (1 : Matrix (Fin 2) (Fin 2) ℝ).trace = 2 := by
    rw [Matrix.trace_fin_two]
    norm_num [Matrix.one_apply]
  rw [h4]
  norm_num

lemma vOrd_concrete :
    vOf wOrd.symmetrized 0 (1/4) = !![(1 : ℝ), 0; 0, 16] := by
  rw [vOf_zero]
  have h1 : wOrd.symmetrized * wOrd.symmetrized = !![(1:ℝ)/4, 0; 0, 1/4] := by
    ext i j
    fin_cases i <;> fin_cases j <;>
      norm_num [wOrd, Matrix.mul_apply, Fin.sum_univ_two,
        Matrix.vecHead, Matrix.vecTail]
  have h2 : wOrd.symmetrizedᵀ * wOrd.symmetrized = !![(1:ℝ)/4, 0; 0, 1/4] := by
    ext i j
    fin_cases i <;> fin_cases j <;>
      norm_num [wOrd, Matrix.mul_apply, Fin.sum_univ_two, Matrix.transpose_apply,
        Matrix.vecHead, Matrix.vecTail]
  have h3 : wOrd.symmetrized.trace = 0 := by
    rw [Matrix.trace_fin_two]
    norm_num [wOrd, Matrix.vecHead, Matrix.vecTail]
  rw [h1, h2, h3]
  have h4 : (!![(1:ℝ)/4, 0; 0, 1/4]).trace = 1/2 := by
    rw [Matrix.trace_fin_two]
    norm_num
  rw [h4]
  norm_num

lemma vSym_unit : IsUnit (vOf wSym.dense 0 (1/4)).det := by
  rw [vSym_concrete, Matrix.det_fin_two]
  apply isUnit_iff_ne_zero.mpr
  norm_num [Matrix.vecHead, Matrix.vecTail]

lemma vOrd_unit : IsUnit (vOf wOrd.symmetrized 0 (1/4)).det := by
  rw [vOrd_concrete, Matrix.det_fin_two]
  apply isUnit_iff_ne_zero.mpr
  norm_num [Matrix.vecHead, Matrix.vecTail]

lemma one_unit_det {n : ℕ} : IsUnit (1 : Matrix (Fin n) (Fin n) ℝ).det := by
  rw [Matrix.det_one]
  exact isUnit_one

/-- Successful evaluation of `err_c_loglik` in closed form. -/
lemma err_c_loglik_eq {n k : ℕ} (lam : ℝ) (nObs : ℕ) (y ylag : Fin n → ℝ)
    (x xlag : Matrix (Fin n) (Fin k) ℝ) (W : Matrix (Fin n) (Fin n) ℝ)
    (h1 : IsUnit ((x - lam • xlag)ᵀ * (x - lam • xlag)).det)
    (hs : 0 < eeVal lam y ylag x xlag / (nObs : ℝ))
    (hj : 0 < (fill_diagonal (-lam • W) 1).det) :
    err_c_loglik lam nObs y ylag x xlag W
      = some (((nObs : ℝ) / 2) * Real.log (eeVal lam y ylag x xlag / (nObs : ℝ))
          - Real.log (fill_diagonal (-lam • W) 1).det) := by
  unfold err_c_loglik jacobFull npLog
  rw [gls_nlsig2_eq lam nObs y ylag x xlag h1 hs]
  simp only [Option.some_bind]
  rw [if_pos hj]
  rfl

/-- Successful evaluation of `err_c_loglik_ord` on a real eigenvalue
array. -/
lemma err_c_loglik_ord_inl {n k : ℕ} (lam : ℝ) (nObs : ℕ)
    (y ylag : Fin n → ℝ) (x xlag : Matrix (Fin n) (Fin k) ℝ)
    (evs : Fin n → ℝ)
    (h1 : IsUnit ((x - lam • xlag)ᵀ * (x - lam • xlag)).det)
    (hs : 0 < eeVal lam y ylag x xlag / (nObs : ℝ))
    (hpos : ∀ i, 0 < 1 - lam * evs i) :
    err_c_loglik_ord lam nObs y ylag x xlag (Sum.inl evs)
      = some (((nObs : ℝ) / 2) * Real.log (eeVal lam y ylag x xlag / (nObs : ℝ))
          - ∑ i, Real.log (1 - lam * evs i)) := by
  unfold err_c_loglik_ord jacobOrd npLogSum
  rw [gls_nlsig2_eq lam nObs y ylag x xlag h1 hs]
  simp only [Option.some_bind]
  rw [if_pos hpos]
  rfl

/-- Successful evaluation of `err_c_loglik_ord` on a complex eigenvalue
array: the real part of the complex log-sum is taken. -/
lemma err_c_loglik_ord_inr {n k : ℕ} (lam : ℝ) (nObs : ℕ)
    (y ylag : Fin n → ℝ) (x xlag : Matrix (Fin n) (Fin k) ℝ)
    (evs : Fin n → ℂ)
    (h1 : IsUnit ((x - lam • xlag)ᵀ * (x - lam • xlag)).det)
    (hs : 0 < eeVal lam y ylag x xlag / (nObs : ℝ))
    (hne : ∀ i, (1 : ℂ) - (lam : ℂ) * evs i ≠ 0) :
    err_c_loglik_ord lam nObs y ylag x xlag (Sum.inr evs)
      = some (((nObs : ℝ) / 2) * Real.log (eeVal lam y ylag x xlag / (nObs : ℝ))
          - (∑ i, Complex.log (1 - (lam : ℂ) * evs i)).re) := by
  unfold err_c_loglik_ord jacobOrd npLogSumC
  rw [gls_nlsig2_eq lam nObs y ylag x xlag h1 hs]
  simp only [Option.some_bind]
  rw [if_pos hne]
  rfl

/-- Successful evaluation of `err_c_loglik_sp` in closed form. -/
lemma err_c_loglik_sp_eq {n k : ℕ}
    (splu : Matrix (Fin n) (Fin n) ℝ → Fin n → ℝ) (lam : ℝ) (nObs : ℕ)
    (y ylag : Fin n → ℝ) (x xlag : Matrix (Fin n) (Fin k) ℝ)
    (I W : Matrix (Fin n) (Fin n) ℝ)
    (h1 : IsUnit ((x - lam • xlag)ᵀ * (x - lam • xlag)).det)
    (hs : 0 < eeVal lam y ylag x xlag / (nObs : ℝ))
    (hne : ∀ i, splu (I - lam • W) i ≠ 0) :
    err_c_loglik_sp splu (LamArg.scalar lam) nObs y ylag x xlag I W
      = some (((nObs : ℝ) / 2) * Real.log (eeVal lam y ylag x xlag / (nObs : ℝ))
          - ∑ i, Real.log |splu (I - lam • W) i|) := by
  unfold err_c_loglik_sp jacobSp npLogAbsSum LamArg.unwrap
  try dsimp only
  rw [gls_nlsig2_eq lam nObs y ylag x xlag h1 hs]
  simp only [Option.some_bind]
  rw [if_pos hne]
  rfl

lemma spfill_zero_unit {n : ℕ} (Wc : Matrix (Fin n) (Fin n) ℝ) :
    IsUnit (spfill_diagonal (-(0 : ℝ) • Wc) 1).det := by
  rw [spfill_zero]
  exact one_unit_det

/-- A complete concrete run of the "full" strategy with the non-converged
minimizer: the result is accepted without inspecting the success flag. -/
lemma run_full_oFail :
    baseMLInit oFail wSym yW xW "full"
      = Except.ok (estOf wSym wSym.dense
          { xmin := 0, fval := 0, success := false }
          yW xW (lag_spatialM wSym.sparse xW) (lag_spatial wSym.sparse yW)) := by
  rw [baseMLInit_full oFail wSym yW xW "full" (by decide)]
  rw [show (oFail.minimize fun lam =>
      err_c_loglik lam 2 yW (lag_spatial wSym.sparse yW) xW
        (lag_spatialM wSym.sparse xW) wSym.dense)
    = { xmin := 0, fval := 0, success := false } from rfl]
  rw [finalize_eq wSym wSym.dense { xmin := 0, fval := 0, success := false }
    yW xW (lag_spatialM wSym.sparse xW) (lag_spatial wSym.sparse yW)
    (xW_unit _) (spfill_zero_unit _)
    (by dsimp only; rw [sig2_concrete]; exact vSym_unit)]

/-- A complete concrete run of the "ord" strategy on a weighting structure
whose symmetrized materialization differs from its dense one. -/
lemma run_ord_oGood :
    baseMLInit oGood wOrd yW xW "ord"
      = Except.ok (estOf wOrd wOrd.symmetrized
          { xmin := 0, fval := 0, success := true }
          yW xW (lag_spatialM wOrd.sparse xW) (lag_spatial wOrd.sparse yW)) := by
  rw [baseMLInit_ord oGood wOrd yW xW "ord" (by decide)]
  unfold ordRun
  try dsimp only
  rw [show wOrd.structSym = true from rfl]
  simp only [if_true]
  rw [show (oGood.minimize fun lam =>
      err_c_loglik_ord lam 2 yW (lag_spatial wOrd.sparse yW) xW
        (lag_spatialM wOrd.sparse xW) (ordEvals oGood wOrd))
    = { xmin := 0, fval := 0, success := true } from rfl]
  rw [finalize_eq wOrd wOrd.symmetrized { xmin := 0, fval := 0, success := true }
    yW xW (lag_spatialM wOrd.sparse xW) (lag_spatial wOrd.sparse yW)
    (xW_unit _) (spfill_zero_unit _)
    (by dsimp only; rw [sig2_concrete]; exact vOrd_unit)]

lemma fill_zero {n : ℕ} (Wc : Matrix (Fin n) (Fin n) ℝ) :
    fill_diagonal (-(0 : ℝ) • Wc) 1 = 1 := by
  ext i j
  unfold fill_diagonal
  by_cases h : i = j
  · simp [h, Matrix.one_apply]
  · simp [h, Matrix.one_apply]

/-! Claim C1. -/

/-- C1 counterexample: the claim states that the dense ("full") strategy
returns `log(|det(A)|)`, a well-defined real number whenever `det(A)` is
nonzero.  At the trial lambda `9/10` in `(-1, 1)` and the dense weighting
matrix `!![0, 2; 2, 0]`, the determinant of `A` is `-56/25 ≠ 0`, yet the
source computes `np.log(det(A))` with no absolute value, which is NaN and
not a well-defined real number. -/
theorem C1_counterexample :
    ((-1 : ℝ) < 9/10 ∧ (9/10 : ℝ) < 1)
    ∧ (fill_diagonal (-(9/10 : ℝ) • !![(0 : ℝ), 2; 2, 0]) 1).det ≠ 0
    ∧ jacobFull (9/10 : ℝ) !![(0 : ℝ), 2; 2, 0] = none := by
  have hd : (fill_diagonal (-(9/10 : ℝ) • !![(0 : ℝ), 2; 2, 0]) 1).det = -(56/25) := by
    rw [Matrix.det_fin_two]
    unfold fill_diagonal
    norm_num [Matrix.smul_apply, Matrix.vecHead, Matrix.vecTail]
  refine ⟨⟨by norm_num, by norm_num⟩, by rw [hd]; norm_num, ?_⟩
  unfold jacobFull npLog
  rw [hd, if_neg (by norm_num)]

/-- C1 (amended): for every trial lambda and dense weighting matrix `W` the
"full" strategy builds `A` as `-lambda·W` with the diagonal then set to 1
(which equals `I - lambda·W` whenever `W` has a zero diagonal), and returns
`log(det(A))` with NO absolute value taken: the result is a well-defined
real number exactly when `det(A)` is positive. -/
theorem C1_full_jacobian {n : ℕ} (lam : ℝ) (W : Matrix (Fin n) (Fin n) ℝ) :
    ((∀ i, W i i = 0) → fill_diagonal (-lam • W) 1 = 1 - lam • W)
    ∧ (0 < (fill_diagonal (-lam • W) 1).det →
        jacobFull lam W = some (Real.log (fill_diagonal (-lam • W) 1).det))
    ∧ (¬ 0 < (fill_diagonal (-lam • W) 1).det → jacobFull lam W = none) := by
  refine ⟨?_, ?_, ?_⟩
  · intro hdiag
    ext i j
    unfold fill_diagonal
    by_cases h : i = j
    · subst h
      simp [Matrix.one_apply, hdiag i]
    · simp [h, Matrix.one_apply]
  · intro hpos
    unfold jacobFull npLog
    rw [if_pos hpos]
  · intro hneg
    unfold jacobFull npLog
    rw [if_neg hneg]

/-- C1 witness: at lambda = 1/2 and the zero-diagonal weighting matrix
`!![0, 1; 1, 0]`, `A = I - lambda·W`, its determinant `3/4` is positive, and
the jacobian evaluates to `log(det A)`. -/
theorem C1_full_jacobian_witness :
    fill_diagonal (-(1/2 : ℝ) • !![(0 : ℝ), 1; 1, 0]) 1
        = 1 - (1/2 : ℝ) • !![(0 : ℝ), 1; 1, 0]
    ∧ jacobFull (1/2 : ℝ) !![(0 : ℝ), 1; 1, 0]
        = some (Real.log (fill_diagonal (-(1/2 : ℝ) • !![(0 : ℝ), 1; 1, 0]) 1).det) := by
  have hd : (fill_diagonal (-(1/2 : ℝ) • !![(0 : ℝ), 1; 1, 0]) 1).det = 3/4 := by
    rw [Matrix.det_fin_two]
    unfold fill_diagonal
    norm_num [Matrix.smul_apply, Matrix.vecHead, Matrix.vecTail]
  exact ⟨(C1_full_jacobian (1/2) _).1 (by
      intro i
      fin_cases i <;> norm_num [Matrix.vecHead, Matrix.vecTail]),
    (C1_full_jacobian (1/2) _).2.1 (by rw [hd]; norm_num)⟩

lemma xW_unit0 (lam : ℝ) :
    IsUnit ((xW - lam • (0 : Matrix (Fin 2) (Fin 1) ℝ))ᵀ *
        (xW - lam • (0 : Matrix (Fin 2) (Fin 1) ℝ))).det := by
  rw [smul_zero, sub_zero, xWtxW, Matrix.det_fin_one]
  apply isUnit_iff_ne_zero.mpr
  norm_num [Matrix.vecHead, Matrix.vecTail]

lemma eeVal_concrete (lam : ℝ) :
    eeVal lam yW (fun _ => 0) xW 0 = 1/2 := by
  unfold eeVal
  try dsimp only
  rw [smul_zero, sub_zero]
  simp only [mul_zero, sub_zero]
  rw [xWtxW, inv_two_fin_one]
  norm_num [Matrix.mulVec, Matrix.dotProduct, Fin.sum_univ_two, Fin.sum_univ_one,
    xW, yW, Matrix.transpose_apply, Matrix.vecHead, Matrix.vecTail]

lemma eeVal_concrete_pos (lam : ℝ) :
    0 < eeVal lam yW (fun _ => 0) xW 0 / ((2 : ℕ) : ℝ) := by
  rw [eeVal_concrete]
  norm_num

/-! Claim C2. -/

/-- C2: each concentrated log-likelihood evaluation computes the filtered
variables, inverts `xsᵀxs` (failing when singular), computes the GLS
residual sum of squares `ee` (the quantity the source computes as
`ysᵀys − xsysᵀ·x1` equals the residual sum of squares of the GLS fit),
sets `sigma² = ee/n`, and returns exactly `(n/2)·log(sigma²)` minus the
Jacobian at lambda, which is the negative of the true concentrated
log-likelihood up to additive constants. -/
theorem C2_concentrated_loglik {n k : ℕ} (lam : ℝ) (nObs : ℕ)
    (y ylag : Fin n → ℝ) (x xlag : Matrix (Fin n) (Fin k) ℝ)
    (W : Matrix (Fin n) (Fin n) ℝ)
    (h1 : IsUnit ((x - lam • xlag)ᵀ * (x - lam • xlag)).det)
    (hs : 0 < eeVal lam y ylag x xlag / (nObs : ℝ))
    (hj : 0 < (fill_diagonal (-lam • W) 1).det) :
    eeVal lam y ylag x xlag
      = ((fun i => y i - lam * ylag i) - (x - lam • xlag) *ᵥ glsB lam y ylag x xlag) ⬝ᵥ
        ((fun i => y i - lam * ylag i) - (x - lam • xlag) *ᵥ glsB lam y ylag x xlag)
    ∧ err_c_loglik lam nObs y ylag x xlag W
        = some (((nObs : ℝ) / 2) * Real.log (eeVal lam y ylag x xlag / (nObs : ℝ))
            - Real.log (fill_diagonal (-lam • W) 1).det)
    ∧ err_c_loglik lam nObs y ylag x xlag W
        = some (-(concLoglikSpec nObs (eeVal lam y ylag x xlag / (nObs : ℝ))
            (Real.log (fill_diagonal (-lam • W) 1).det)))
    ∧ (∀ lam2 : ℝ, ¬ IsUnit ((x - lam2 • xlag)ᵀ * (x - lam2 • xlag)).det →
        err_c_loglik lam2 nObs y ylag x xlag W = none) := by
  refine ⟨?_, err_c_loglik_eq lam nObs y ylag x xlag W h1 hs hj, ?_, ?_⟩
  · unfold eeVal glsB
    try dsimp only
    exact (ee_eq_rss (x - lam • xlag) (fun i => y i - lam * ylag i) h1).symm
  · rw [err_c_loglik_eq lam nObs y ylag x xlag W h1 hs hj]
    unfold concLoglikSpec
    congr 1
    ring
  · intro lam2 h
    unfold err_c_loglik
    rw [gls_nlsig2_none lam2 nObs y ylag x xlag h]
    rfl

/-- C2 witness: a concrete evaluation of `err_c_loglik` on the sample data
at lambda = 0. -/
theorem C2_witness :
    err_c_loglik (0 : ℝ) 2 yW (fun _ => 0) xW 0 wSym.dense
      = some (((2 : ℕ) : ℝ) / 2 *
          Real.log (eeVal (0 : ℝ) yW (fun _ => 0) xW 0 / ((2 : ℕ) : ℝ))
          - Real.log (fill_diagonal (-(0 : ℝ) • wSym.dense) 1).det) :=
  (C2_concentrated_loglik 0 2 yW (fun _ => 0) xW 0 wSym.dense (xW_unit0 0)
    (eeVal_concrete_pos 0)
    (by rw [fill_zero, Matrix.det_one]; norm_num)).2.1

/-! Claim C3. -/

/-- C3: for every method string whose case-insensitive uppercasing is not
one of FULL, LU, ORD, the estimator fails with the configuration error,
whatever the data and whatever the numerical oracles would compute (the
failure does not depend on any computation); conversely every case variant
of the three supported strings is accepted: the configuration error is
never produced for them. -/
theorem C3_method_dispatch {n k : ℕ} (o : Oracles n) (w : WStruct n)
    (y : Fin n → ℝ) (x : Matrix (Fin n) (Fin k) ℝ) (method : String) :
    (¬ (pyUpper method = "FULL" ∨ pyUpper method = "LU" ∨ pyUpper method = "ORD") →
      baseMLInit o w y x method = Except.error (Err.configurationError method))
    ∧ ((pyUpper method = "FULL" ∨ pyUpper method = "LU" ∨ pyUpper method = "ORD") →
      ∀ m : String, baseMLInit o w y x method ≠ Except.error (Err.configurationError m)) := by
  constructor
  · intro h
    unfold baseMLInit
    try dsimp only
    rw [if_neg h]
  · intro h m
    unfold baseMLInit
    try dsimp only
    rw [if_pos h]
    split <;> simp

/-- C3 witness: the unsupported string "banana" is rejected with the
configuration error, while the case variant "Full" is accepted. -/
theorem C3_witness :
    baseMLInit oGood wSym yW xW "banana"
        = Except.error (Err.configurationError "banana")
    ∧ baseMLInit oGood wSym yW xW "Full"
        ≠ Except.error (Err.configurationError "Full") :=
  ⟨(C3_method_dispatch oGood wSym yW xW "banana").1 (by decide),
   (C3_method_dispatch oGood wSym yW xW "Full").2 (by decide) "Full"⟩

/-! Claim C4. -/

lemma finalize_res_ext {n k : ℕ} (w : WStruct n)
    (Wcov : Matrix (Fin n) (Fin n) ℝ) (res res2 : OptResult)
    (y : Fin n → ℝ) (x xlag : Matrix (Fin n) (Fin k) ℝ) (ylag : Fin n → ℝ)
    (hx : res2.xmin = res.xmin) (hf : res2.fval = res.fval) :
    finalize w Wcov res2 y x xlag ylag = finalize w Wcov res y x xlag ylag := by
  cases res
  cases res2
  simp only at hx hf
  subst hx
  subst hf
  rfl

/-- C4 counterexample: with a minimizer that reports non-convergence
(success = false), the estimation still finishes with `Except.ok`, the
non-converged iterate is accepted as the optimal lambda, and no
optimization error is raised. -/
theorem C4_counterexample :
    (oFail.minimize fun lam =>
        err_c_loglik lam 2 yW (lag_spatial wSym.sparse yW) xW
          (lag_spatialM wSym.sparse xW) wSym.dense).success = false
    ∧ lamOf (baseMLInit oFail wSym yW xW "full")
        = some (oFail.minimize fun lam =>
            err_c_loglik lam 2 yW (lag_spatial wSym.sparse yW) xW
              (lag_spatialM wSym.sparse xW) wSym.dense).xmin
    ∧ baseMLInit oFail wSym yW xW "full" ≠ Except.error Err.optimizationError := by
  refine ⟨rfl, ?_, ?_⟩
  · rw [run_full_oFail]
    rfl
  · rw [run_full_oFail]
    simp

/-- C4 (amended): the source never raises an optimization error, and the
estimation result is entirely independent of the optimizer's convergence
flag: two oracle sets whose minimizers agree on the argmin and the
minimized value (but may disagree on success) give identical estimates —
a non-converged result is silently accepted. -/
theorem C4_optimizer_flag_ignored {n k : ℕ} :
    (∀ (o : Oracles n) (w : WStruct n) (y : Fin n → ℝ)
        (x : Matrix (Fin n) (Fin k) ℝ) (method : String),
      baseMLInit o w y x method ≠ Except.error Err.optimizationError)
    ∧ (∀ (o o2 : Oracles n) (w : WStruct n) (y : Fin n → ℝ)
        (x : Matrix (Fin n) (Fin k) ℝ) (method : String),
      (∀ f, (o2.minimize f).xmin = (o.minimize f).xmin) →
      (∀ f, (o2.minimize f).fval = (o.minimize f).fval) →
      o2.eigvalsh = o.eigvalsh → o2.eigvals = o.eigvals → o2.splu = o.splu →
      baseMLInit o2 w y x method = baseMLInit o w y x method) := by
  constructor
  · intro o w y x method
    unfold baseMLInit
    try dsimp only
    by_cases h : pyUpper method = "FULL" ∨ pyUpper method = "LU" ∨ pyUpper method = "ORD"
    · rw [if_pos h]
      split <;> simp
    · rw [if_neg h]
      simp
  · intro o o2 w y x method hx hf he1 he2 hsp
    by_cases h1 : pyUpper method = "FULL"
    · rw [baseMLInit_full o w y x method h1, baseMLInit_full o2 w y x method h1]
      rw [finalize_res_ext w w.dense _ _ y x _ _ (hx _) (hf _)]
    · by_cases h2 : pyUpper method = "LU"
      · rw [baseMLInit_lu o w y x method h2, baseMLInit_lu o2 w y x method h2]
        rw [hsp]
        rw [finalize_res_ext w w.sparse _ _ y x _ _ (hx _) (hf _)]
      · by_cases h3 : pyUpper method = "ORD"
        · rw [baseMLInit_ord o w y x method h3, baseMLInit_ord o2 w y x method h3]
          unfold ordRun ordEvals
          try dsimp only
          rw [he1, he2]
          by_cases hsym : w.structSym
          · rw [if_pos hsym, if_pos hsym]
            rw [finalize_res_ext w w.symmetrized _ _ y x _ _ (hx _) (hf _)]
          · rw [if_neg hsym, if_neg hsym]
            rw [finalize_res_ext w w.dense _ _ y x _ _ (hx _) (hf _)]
        · have hnot : ¬ (pyUpper method = "FULL" ∨ pyUpper method = "LU" ∨
              pyUpper method = "ORD") := by
            push_neg
            exact ⟨h1, h2, h3⟩
          unfold baseMLInit
          try dsimp only
          rw [if_neg hnot, if_neg hnot]

/-- C4 witness for the amended claim: the converged and the non-converged
concrete oracles give the same estimation result, and the failing oracle
does not produce an optimization error. -/
theorem C4_optimizer_flag_ignored_witness :
    baseMLInit oFail wSym yW xW "full" = baseMLInit oGood wSym yW xW "full"
    ∧ baseMLInit oFail wSym yW xW "full" ≠ Except.error Err.optimizationError :=
  ⟨(C4_optimizer_flag_ignored (n := 2) (k := 1)).2 oGood oFail wSym yW xW "full"
      (fun _ => rfl) (fun _ => rfl) rfl rfl rfl,
   (C4_optimizer_flag_ignored (n := 2) (k := 1)).1 oFail wSym yW xW "full"⟩

/-! Claim C5. -/

/-- C5: under the "ord" strategy the run equals `ordRun`, in which the
eigenvalues are computed exactly once, before the minimization, and are
`eigvalsh` of the symmetrized matrix when the structure is symmetric apart
from representation, general (possibly complex) eigenvalues of the dense
matrix otherwise; and every per-iteration Jacobian value is the sum over
all eigenvalues of `log(1 - lambda·eigenvalue)`, the real part being taken
when that sum is complex-valued. -/
theorem C5_ord_strategy {n k : ℕ} (o : Oracles n) (w : WStruct n)
    (y : Fin n → ℝ) (x : Matrix (Fin n) (Fin k) ℝ) (method : String)
    (lam : ℝ) (nObs : ℕ) (y2 ylag2 : Fin n → ℝ)
    (x2 xlag2 : Matrix (Fin n) (Fin k) ℝ)
    (evsR : Fin n → ℝ) (evsC : Fin n → ℂ)
    (hm : pyUpper method = "ORD")
    (h1 : IsUnit ((x2 - lam • xlag2)ᵀ * (x2 - lam • xlag2)).det)
    (hs : 0 < eeVal lam y2 ylag2 x2 xlag2 / (nObs : ℝ))
    (hposR : ∀ i, 0 < 1 - lam * evsR i)
    (hneC : ∀ i, (1 : ℂ) - (lam : ℂ) * evsC i ≠ 0) :
    baseMLInit o w y x method = ordRun o w y x
    ∧ ordEvals o w
        = (if w.structSym then Sum.inl (o.eigvalsh w.symmetrized)
           else o.eigvals w.dense)
    ∧ err_c_loglik_ord lam nObs y2 ylag2 x2 xlag2 (Sum.inl evsR)
        = some (((nObs : ℝ) / 2) * Real.log (eeVal lam y2 ylag2 x2 xlag2 / (nObs : ℝ))
            - ∑ i, Real.log (1 - lam * evsR i))
    ∧ err_c_loglik_ord lam nObs y2 ylag2 x2 xlag2 (Sum.inr evsC)
        = some (((nObs : ℝ) / 2) * Real.log (eeVal lam y2 ylag2 x2 xlag2 / (nObs : ℝ))
            - (∑ i, Complex.log (1 - (lam : ℂ) * evsC i)).re) :=
  ⟨baseMLInit_ord o w y x method hm, rfl,
   err_c_loglik_ord_inl lam nObs y2 ylag2 x2 xlag2 evsR h1 hs hposR,
   err_c_loglik_ord_inr lam nObs y2 ylag2 x2 xlag2 evsC h1 hs hneC⟩

/-- C5 witness: the concrete "ord" run on the sample data, and a concrete
per-iteration Jacobian evaluation at lambda = 0 with the eigenvalue array
`![1, -1]`. -/
theorem C5_witness :
    baseMLInit oGood wOrd yW xW "ord" = ordRun oGood wOrd yW xW
    ∧ err_c_loglik_ord (0 : ℝ) 2 yW (fun _ => 0) xW 0 (Sum.inl ![1, -1])
        = some (((2 : ℕ) : ℝ) / 2 *
            Real.log (eeVal (0 : ℝ) yW (fun _ => 0) xW 0 / ((2 : ℕ) : ℝ))
            - ∑ i, Real.log (1 - 0 * (![1, -1] : Fin 2 → ℝ) i)) := by
  have h := C5_ord_strategy oGood wOrd yW xW "ord" 0 2 yW (fun _ => 0) xW 0
    ![1, -1] (fun _ => 0) (by decide) (xW_unit0 0) (eeVal_concrete_pos 0)
    (by intro i; norm_num)
    (by intro i; norm_num)
  exact ⟨h.1, h.2.2.1⟩

/-! Claim C6. -/

/-- C6: the "LU" strategy unwraps a trial lambda that arrives as a 1×1
array, returning the same value as for the scalar lambda; its per-iteration
Jacobian value is the sum of the logs of the absolute values of the
diagonal entries of the upper factor produced by the sparse LU
factorization of `A = I - lambda·Wsparse`; and for any valid
(row/column-permuted, unit-lower-triangular times upper-triangular)
factorization that sum equals `log |det A|`. -/
theorem C6_lu_strategy {n k : ℕ}
    (splu : Matrix (Fin n) (Fin n) ℝ → Fin n → ℝ) (lam : ℝ) (nObs : ℕ)
    (y ylag : Fin n → ℝ) (x xlag : Matrix (Fin n) (Fin k) ℝ)
    (I W L U : Matrix (Fin n) (Fin n) ℝ) (σ τ : Equiv.Perm (Fin n))
    (h1 : IsUnit ((x - lam • xlag)ᵀ * (x - lam • xlag)).det)
    (hs : 0 < eeVal lam y ylag x xlag / (nObs : ℝ))
    (hne : ∀ i, splu (I - lam • W) i ≠ 0)
    (hL : ∀ i j : Fin n, i < j → L i j = 0) (hLd : ∀ i, L i i = 1)
    (hU : ∀ i j : Fin n, j < i → U i j = 0)
    (hfact : (I - lam • W).submatrix ⇑σ ⇑τ = L * U)
    (hdet : (I - lam • W).det ≠ 0)
    (hdiag : ∀ i, U i i = splu (I - lam • W) i) :
    err_c_loglik_sp splu (LamArg.arr11 lam) nObs y ylag x xlag I W
      = err_c_loglik_sp splu (LamArg.scalar lam) nObs y ylag x xlag I W
    ∧ err_c_loglik_sp splu (LamArg.scalar lam) nObs y ylag x xlag I W
        = some (((nObs : ℝ) / 2) * Real.log (eeVal lam y ylag x xlag / (nObs : ℝ))
            - ∑ i, Real.log |splu (I - lam • W) i|)
    ∧ ∑ i, Real.log |splu (I - lam • W) i| = Real.log |(I - lam • W).det| := by
  refine ⟨rfl, err_c_loglik_sp_eq splu lam nObs y ylag x xlag I W h1 hs hne, ?_⟩
  have hsum : ∑ i, Real.log |splu (I - lam • W) i| = ∑ i, Real.log |U i i| :=
    Finset.sum_congr rfl (fun i _ => by rw [hdiag i])
  rw [hsum]
  exact sum_log_U_diag (I - lam • W) L U σ τ hL hLd hU hfact hdet

/-- C6 witness: at lambda = 1/2 with the sparse matrix `!![0, 1; 1, 0]`,
`A = !![1, -1/2; -1/2, 1]` factors as `L·U` with `L = !![1, 0; -1/2, 1]`
and `U = !![1, -1/2; 0, 3/4]` (identity permutations), the concrete `splu`
oracle returns the diagonal `![1, 3/4]` of `U`, and the claimed equalities
hold there. -/
theorem C6_witness :
    err_c_loglik_sp oGood.splu (LamArg.arr11 (1/2 : ℝ)) 2 yW (fun _ => 0) xW 0
        1 wSym.sparse
      = err_c_loglik_sp oGood.splu (LamArg.scalar (1/2 : ℝ)) 2 yW (fun _ => 0) xW 0
        1 wSym.sparse
    ∧ ∑ i, Real.log |oGood.splu (1 - (1/2 : ℝ) • wSym.sparse) i|
        = Real.log |((1 : Matrix (Fin 2) (Fin 2) ℝ) - (1/2 : ℝ) • wSym.sparse).det| := by
  have hA : (1 : Matrix (Fin 2) (Fin 2) ℝ) - (1/2 : ℝ) • wSym.sparse
      = !![1, -(1/2); -(1/2), 1] := by
    ext i j
    fin_cases i <;> fin_cases j <;>
      norm_num [wSym, Matrix.one_apply, Matrix.smul_apply,
        Matrix.vecHead, Matrix.vecTail]
  have hdet : ((1 : Matrix (Fin 2) (Fin 2) ℝ) - (1/2 : ℝ) • wSym.sparse).det ≠ 0 := by
    rw [hA, Matrix.det_fin_two]
    norm_num [Matrix.vecHead, Matrix.vecTail]
  have hfact : ((1 : Matrix (Fin 2) (Fin 2) ℝ) - (1/2 : ℝ) • wSym.sparse).submatrix
      ⇑(1 : Equiv.Perm (Fin 2)) ⇑(1 : Equiv.Perm (Fin 2))
      = !![(1 : ℝ), 0; -(1/2), 1] * !![(1 : ℝ), -(1/2); 0, 3/4] := by
    rw [show ⇑(1 : Equiv.Perm (Fin 2)) = id from rfl, Matrix.submatrix_id_id, hA]
    ext i j
    fin_cases i <;> fin_cases j <;>
      norm_num [Matrix.mul_apply, Fin.sum_univ_two, Matrix.vecHead, Matrix.vecTail]
  have h := C6_lu_strategy oGood.splu (1/2 : ℝ) 2 yW (fun _ => 0) xW 0
    1 wSym.sparse !![(1 : ℝ), 0; -(1/2), 1] !![(1 : ℝ), -(1/2); 0, 3/4]
    1 1 (xW_unit0 (1/2)) (eeVal_concrete_pos (1/2))
    (by intro i; fin_cases i <;> norm_num [oGood, Matrix.vecHead, Matrix.vecTail])
    (by intro i j hij; fin_cases i <;> fin_cases j <;>
      first
        | exact absurd hij (by decide)
        | norm_num [Matrix.vecHead, Matrix.vecTail])
    (by intro i; fin_cases i <;> norm_num [Matrix.vecHead, Matrix.vecTail])
    (by intro i j hij; fin_cases i <;> fin_cases j <;>
      first
        | exact absurd hij (by decide)
        | norm_num [Matrix.vecHead, Matrix.vecTail])
    hfact hdet
    (by intro i; fin_cases i <;> norm_num [oGood, Matrix.vecHead, Matrix.vecTail])
  exact ⟨h.1, h.2.2⟩

/-! Claims C7 and C8. -/

lemma vmBlock_topleft {k : ℕ} (varb : Matrix (Fin k) (Fin k) ℝ) (c : ℝ)
    (i j : Fin k) :
    vmBlock varb c (Fin.castSucc i) (Fin.castSucc j) = varb i j := by
  have hi : ((Fin.castSucc i : Fin (k + 1)) : ℕ) < k := by
    simp [Fin.coe_castSucc]
  have hj : ((Fin.castSucc j : Fin (k + 1)) : ℕ) < k := by
    simp [Fin.coe_castSucc]
  unfold vmBlock
  rw [dif_pos hi, dif_pos hj]
  congr 1

lemma vmBlock_corner {k : ℕ} (varb : Matrix (Fin k) (Fin k) ℝ) (c : ℝ) :
    vmBlock varb c (Fin.last k) (Fin.last k) = c := by
  unfold vmBlock
  rw [dif_neg (by simp), if_neg (by simp)]

lemma vmBlock_cross {k : ℕ} (varb : Matrix (Fin k) (Fin k) ℝ) (c : ℝ)
    (i : Fin k) :
    vmBlock varb c (Fin.castSucc i) (Fin.last k) = 0
    ∧ vmBlock varb c (Fin.last k) (Fin.castSucc i) = 0 := by
  constructor
  · unfold vmBlock
    rw [dif_pos (by simp [Fin.coe_castSucc] : ((Fin.castSucc i : Fin (k + 1)) : ℕ) < k)]
    rw [dif_neg (by simp)]
  · unfold vmBlock
    rw [dif_neg (by simp), if_pos (by simp [Fin.coe_castSucc] :
      ((Fin.castSucc i : Fin (k + 1)) : ℕ) < k)]

/-- C7: a successful run of the post-optimization tail yields exactly the
record of final estimates: betas is the GLS solution `b` (satisfying the
normal equations) with lambda appended as the last coefficient, raw
residuals `u = y - x·b` with the unfiltered `x`, predicted values
`predy = y - u`, filtered residuals `e = u - lambda·(W·u)`, and
`sigma² = (eᵀe)/n`. -/
theorem C7_final_estimates {n k : ℕ} (w : WStruct n)
    (Wcov : Matrix (Fin n) (Fin n) ℝ) (res : OptResult) (y : Fin n → ℝ)
    (x xlag : Matrix (Fin n) (Fin k) ℝ) (ylag : Fin n → ℝ)
    (h1 : IsUnit ((x - res.xmin • xlag)ᵀ * (x - res.xmin • xlag)).det)
    (h2 : IsUnit (spfill_diagonal (-res.xmin • Wcov) 1).det)
    (h3 : IsUnit (vOf Wcov res.xmin (sig2Of w res.xmin y ylag x xlag)).det) :
    finalize w Wcov res y x xlag ylag = some (estOf w Wcov res y x xlag ylag)
    ∧ (estOf w Wcov res y x xlag ylag).lam = res.xmin
    ∧ (estOf w Wcov res y x xlag ylag).betas
        = Fin.snoc (glsB res.xmin y ylag x xlag) res.xmin
    ∧ (estOf w Wcov res y x xlag ylag).u
        = (fun i => y i - (x *ᵥ glsB res.xmin y ylag x xlag) i)
    ∧ (estOf w Wcov res y x xlag ylag).predy
        = (fun i => y i - (estOf w Wcov res y x xlag ylag).u i)
    ∧ (estOf w Wcov res y x xlag ylag).e_filtered
        = (fun i => (estOf w Wcov res y x xlag ylag).u i
            - res.xmin * (w.sparse *ᵥ (estOf w Wcov res y x xlag ylag).u) i)
    ∧ (estOf w Wcov res y x xlag ylag).sig2
        = ((estOf w Wcov res y x xlag ylag).e_filtered ⬝ᵥ
            (estOf w Wcov res y x xlag ylag).e_filtered) / (n : ℝ)
    ∧ ((x - res.xmin • xlag)ᵀ * (x - res.xmin • xlag)) *ᵥ
          glsB res.xmin y ylag x xlag
        = (x - res.xmin • xlag)ᵀ *ᵥ (fun i => y i - res.xmin * ylag i) := by
  refine ⟨finalize_eq w Wcov res y x xlag ylag h1 h2 h3, rfl, rfl, rfl, rfl,
    rfl, rfl, ?_⟩
  unfold glsB
  exact normal_solve (x - res.xmin • xlag) _ h1

/-- C7 witness: the concrete sample run at lambda = 0. -/
theorem C7_witness :
    finalize wSym wSym.dense { xmin := 0, fval := 0, success := true }
        yW xW 0 (fun _ => 0)
      = some (estOf wSym wSym.dense { xmin := 0, fval := 0, success := true }
          yW xW 0 (fun _ => 0))
    ∧ (estOf wSym wSym.dense { xmin := 0, fval := 0, success := true }
        yW xW 0 (fun _ => 0)).betas
      = Fin.snoc (glsB 0 yW (fun _ => 0) xW 0) 0 := by
  have h := C7_final_estimates wSym wSym.dense
    { xmin := 0, fval := 0, success := true } yW xW 0 (fun _ => 0)
    (xW_unit0 0) (spfill_zero_unit _)
    (by dsimp only; rw [sig2_concrete]; exact vSym_unit)
  exact ⟨h.1, h.2.2.1⟩

/-- C8: a successful run of the covariance step inverts
`a = -lambda·W` with diagonal forced to 1, sets `wai = W·a⁻¹`, computes the
three traces, inverts the 2×2 information matrix
`[[tr2+tr3, tr1/sigma²], [tr1/sigma², n/(2·sigma²²)]]` to obtain `vm1`
(a genuine two-sided inverse), and assembles the (k+1)×(k+1) covariance
matrix with top-left block `sigma²·(xsᵀxs)⁻¹`, bottom-right scalar the
lambda-variance entry `vm1 0 0`, and vanishing beta/lambda cross-terms. -/
theorem C8_covariance {n k : ℕ} (w : WStruct n)
    (Wcov : Matrix (Fin n) (Fin n) ℝ) (res : OptResult) (y : Fin n → ℝ)
    (x xlag : Matrix (Fin n) (Fin k) ℝ) (ylag : Fin n → ℝ)
    (h1 : IsUnit ((x - res.xmin • xlag)ᵀ * (x - res.xmin • xlag)).det)
    (h2 : IsUnit (spfill_diagonal (-res.xmin • Wcov) 1).det)
    (h3 : IsUnit (vOf Wcov res.xmin (sig2Of w res.xmin y ylag x xlag)).det) :
    vOf Wcov res.xmin (sig2Of w res.xmin y ylag x xlag)
      = (let wai := spdot Wcov (spfill_diagonal (-res.xmin • Wcov) 1)⁻¹
         !![(spdot wai wai).trace + (spdot waiᵀ wai).trace,
              wai.trace / sig2Of w res.xmin y ylag x xlag;
            wai.trace / sig2Of w res.xmin y ylag x xlag,
              (n : ℝ) / (2 * sig2Of w res.xmin y ylag x xlag ^ 2)])
    ∧ (finalize w Wcov res y x xlag ylag).map Estimates.vm1
        = some (vOf Wcov res.xmin (sig2Of w res.xmin y ylag x xlag))⁻¹
    ∧ vOf Wcov res.xmin (sig2Of w res.xmin y ylag x xlag) *
          (vOf Wcov res.xmin (sig2Of w res.xmin y ylag x xlag))⁻¹ = 1
    ∧ (vOf Wcov res.xmin (sig2Of w res.xmin y ylag x xlag))⁻¹ *
          vOf Wcov res.xmin (sig2Of w res.xmin y ylag x xlag) = 1
    ∧ (finalize w Wcov res y x xlag ylag).map Estimates.vm
        = some (vmBlock
            (sig2Of w res.xmin y ylag x xlag •
              ((x - res.xmin • xlag)ᵀ * (x - res.xmin • xlag))⁻¹)
            ((vOf Wcov res.xmin (sig2Of w res.xmin y ylag x xlag))⁻¹ 0 0))
    ∧ (∀ i j : Fin k,
        (estOf w Wcov res y x xlag ylag).vm (Fin.castSucc i) (Fin.castSucc j)
          = sig2Of w res.xmin y ylag x xlag *
              ((x - res.xmin • xlag)ᵀ * (x - res.xmin • xlag))⁻¹ i j)
    ∧ (estOf w Wcov res y x xlag ylag).vm (Fin.last k) (Fin.last k)
        = (vOf Wcov res.xmin (sig2Of w res.xmin y ylag x xlag))⁻¹ 0 0
    ∧ (∀ i : Fin k,
        (estOf w Wcov res y x xlag ylag).vm (Fin.castSucc i) (Fin.last k) = 0
        ∧ (estOf w Wcov res y x xlag ylag).vm (Fin.last k) (Fin.castSucc i) = 0) := by
  refine ⟨rfl, ?_, Matrix.mul_nonsing_inv _ h3, Matrix.nonsing_inv_mul _ h3,
    ?_, ?_, ?_, ?_⟩
  · rw [finalize_eq w Wcov res y x xlag ylag h1 h2 h3]
    rfl
  · rw [finalize_eq w Wcov res y x xlag ylag h1 h2 h3]
    rfl
  · intro i j
    show vmBlock _ _ _ _ = _
    rw [vmBlock_topleft]
    rfl
  · show vmBlock _ _ _ _ = _
    rw [vmBlock_corner]
  · intro i
    exact vmBlock_cross _ _ i

/-- C8 witness: the concrete covariance assembly on the sample run at
lambda = 0. -/
theorem C8_witness :
    (finalize wSym wSym.dense { xmin := 0, fval := 0, success := true }
        yW xW 0 (fun _ => 0)).map Estimates.vm1
      = some (vOf wSym.dense (0 : ℝ)
          (sig2Of wSym 0 yW (fun _ => 0) xW 0))⁻¹
    ∧ vOf wSym.dense (0 : ℝ) (sig2Of wSym 0 yW (fun _ => 0) xW 0) *
        (vOf wSym.dense (0 : ℝ) (sig2Of wSym 0 yW (fun _ => 0) xW 0))⁻¹ = 1 := by
  have h := C8_covariance wSym wSym.dense
    { xmin := 0, fval := 0, success := true } yW xW 0 (fun _ => 0)
    (xW_unit0 0) (spfill_zero_unit _)
    (by dsimp only; rw [sig2_concrete]; exact vSym_unit)
  exact ⟨h.2.1, h.2.2.1⟩

/-! Claim C9. -/

lemma U_diag_ne_zero {n : ℕ} (A L U : Matrix (Fin n) (Fin n) ℝ)
    (σ τ : Equiv.Perm (Fin n))
    (hL : ∀ i j : Fin n, i < j → L i j = 0) (hLd : ∀ i, L i i = 1)
    (hU : ∀ i j : Fin n, j < i → U i j = 0)
    (hfact : A.submatrix ⇑σ ⇑τ = L * U)
    (hdet : A.det ≠ 0) :
    ∀ i, U i i ≠ 0 := by
  have hUt : U.BlockTriangular id := fun i j h => hU i j h
  have hLt : L.BlockTriangular ⇑OrderDual.toDual := fun i j h => hL i j h
  have hdetU : U.det = ∏ i, U i i := Matrix.det_of_upperTriangular hUt
  have hdetL : L.det = 1 := by
    rw [Matrix.det_of_lowerTriangular L hLt]
    simp [hLd]
  have h2 : (A.submatrix ⇑σ ⇑τ).det = ∏ i, U i i := by
    rw [hfact, Matrix.det_mul, hdetL, one_mul, hdetU]
  have habs : |∏ i, U i i| = |A.det| := by
    rw [← h2, abs_det_submatrix_perm]
  have hprod : (∏ i, U i i) ≠ 0 := by
    intro hz
    rw [hz, abs_zero] at habs
    exact hdet (abs_eq_zero.mp habs.symm)
  exact fun i => Finset.prod_ne_zero_iff.mp hprod i (Finset.mem_univ i)

/-- C9: at lambda = 0 the Jacobian term of all three strategies is exactly
zero — the dense strategy evaluates `log(det I) = 0`; the LU strategy sums
the logs of the absolute diagonal of the upper factor of any valid
factorization of `I - 0·Wsparse = I`, whose product has absolute value 1,
giving 0; and both eigenvalue variants sum `log(1 - 0·eigenvalue) = 0`. -/
theorem C9_jacobian_zero {n : ℕ}
    (W Wsp : Matrix (Fin n) (Fin n) ℝ)
    (splu : Matrix (Fin n) (Fin n) ℝ → Fin n → ℝ)
    (evsR : Fin n → ℝ) (evsC : Fin n → ℂ)
    (L U : Matrix (Fin n) (Fin n) ℝ) (σ τ : Equiv.Perm (Fin n))
    (hL : ∀ i j : Fin n, i < j → L i j = 0) (hLd : ∀ i, L i i = 1)
    (hU : ∀ i j : Fin n, j < i → U i j = 0)
    (hfact : ((1 : Matrix (Fin n) (Fin n) ℝ) - (0 : ℝ) • Wsp).submatrix ⇑σ ⇑τ
        = L * U)
    (hdiag : ∀ i, U i i = splu ((1 : Matrix (Fin n) (Fin n) ℝ) - (0 : ℝ) • Wsp) i) :
    jacobFull 0 W = some 0
    ∧ jacobSp splu 0 1 Wsp = some 0
    ∧ jacobOrd 0 (Sum.inl evsR) = some 0
    ∧ jacobOrd 0 (Sum.inr evsC) = some 0 := by
  have hA : (1 : Matrix (Fin n) (Fin n) ℝ) - (0 : ℝ) • Wsp = 1 := by
    simp
  have hdet : ((1 : Matrix (Fin n) (Fin n) ℝ) - (0 : ℝ) • Wsp).det ≠ 0 := by
    rw [hA, Matrix.det_one]
    norm_num
  refine ⟨?_, ?_, ?_, ?_⟩
  · unfold jacobFull npLog
    rw [fill_zero, Matrix.det_one, if_pos one_pos, Real.log_one]
  · have hne : ∀ i, splu ((1 : Matrix (Fin n) (Fin n) ℝ) - (0 : ℝ) • Wsp) i ≠ 0 :=
      fun i => by
        rw [← hdiag i]
        exact U_diag_ne_zero _ L U σ τ hL hLd hU hfact hdet i
    unfold jacobSp npLogAbsSum
    rw [if_pos hne]
    have hsum : ∑ i, Real.log |splu ((1 : Matrix (Fin n) (Fin n) ℝ) - (0 : ℝ) • Wsp) i|
        = Real.log |((1 : Matrix (Fin n) (Fin n) ℝ) - (0 : ℝ) • Wsp).det| := by
      rw [Finset.sum_congr rfl (fun i _ => by rw [← hdiag i])]
      exact sum_log_U_diag _ L U σ τ hL hLd hU hfact hdet
    rw [hsum, hA, Matrix.det_one, abs_one, Real.log_one]
  · show npLogSum (fun i => 1 - (0 : ℝ) * evsR i) = some 0
    unfold npLogSum
    rw [if_pos (by intro i; norm_num)]
    norm_num
  · show npLogSumC (fun i => 1 - ((0 : ℝ) : ℂ) * evsC i) = some 0
    unfold npLogSumC
    rw [if_pos (by intro i; norm_num)]
    norm_num [Complex.log_one]

/-- C9 witness: concrete instances for all three strategies on the sample
weighting matrix, with the trivial factorization of the identity. -/
theorem C9_witness :
    jacobFull (0 : ℝ) wSym.dense = some 0
    ∧ jacobSp (fun _ _ => (1 : ℝ)) 0 1 wSym.sparse = some 0
    ∧ jacobOrd (0 : ℝ) (Sum.inl (![1, -1] : Fin 2 → ℝ)) = some 0
    ∧ jacobOrd (0 : ℝ) (Sum.inr (![0, 0] : Fin 2 → ℂ)) = some 0 :=
  C9_jacobian_zero wSym.dense wSym.sparse (fun _ _ => 1) ![1, -1] ![0, 0]
    1 1 1 1
    (fun i j h => Matrix.one_apply_ne (ne_of_lt h))
    (fun i => Matrix.one_apply_eq i)
    (fun i j h => Matrix.one_apply_ne (ne_of_gt h))
    (by rw [show ⇑(1 : Equiv.Perm (Fin 2)) = id from rfl]; simp)
    (fun i => Matrix.one_apply_eq i)

/-! Claim C10. -/

lemma finalize_some {n k : ℕ} (w : WStruct n)
    (Wcov : Matrix (Fin n) (Fin n) ℝ) (res : OptResult) (y : Fin n → ℝ)
    (x xlag : Matrix (Fin n) (Fin k) ℝ) (ylag : Fin n → ℝ)
    (est : Estimates n k)
    (h : finalize w Wcov res y x xlag ylag = some est) :
    est = estOf w Wcov res y x xlag ylag := by
  unfold finalize npInv spinv at h
  try dsimp only at h
  split at h
  · simp only [Option.some_bind] at h
    try dsimp only at h
    split at h
    · simp only [Option.some_bind] at h
      try dsimp only at h
      split at h
      · simp only [Option.map_some'] at h
        exact (Option.some.inj h).symm
      · simp at h
    · simp at h
  · simp at h

lemma covW_full {n : ℕ} (w : WStruct n) : covW w "FULL" = w.dense := by
  unfold covW
  rw [if_pos rfl]

lemma covW_lu {n : ℕ} (w : WStruct n) : covW w "LU" = w.sparse := by
  unfold covW
  rw [if_neg (by decide), if_pos rfl]

lemma covW_ord {n : ℕ} (w : WStruct n) :
    covW w "ORD" = if w.structSym then w.symmetrized else w.dense := by
  unfold covW
  rw [if_neg (by decide), if_neg (by decide)]

/-- C10: the matrix used by the covariance step is the strategy-dependent
materialization selected during Jacobian setup — the dense materialization
for "full", the sparse one for "LU", and, when "ord" with a structure that
is symmetric apart from representation, the symmetrized matrix — so the
trace-based matrix `vm1` of a finished run is the inverse of the 2×2
information matrix computed from `covW`, which is `symmetrize(w)` rather
than `w` itself in that "ord" case. -/
theorem C10_covariance_W {n k : ℕ} (o : Oracles n) (w : WStruct n)
    (y : Fin n → ℝ) (x : Matrix (Fin n) (Fin k) ℝ) (method : String)
    (r : Estimates n k)
    (hok : baseMLInit o w y x method = Except.ok r) :
    r.vm1 = (vOf (covW w (pyUpper method)) r.lam r.sig2)⁻¹
    ∧ covW w "FULL" = w.dense
    ∧ covW w "LU" = w.sparse
    ∧ (w.structSym = true → covW w "ORD" = w.symmetrized)
    ∧ (w.structSym = false → covW w "ORD" = w.dense) := by
  refine ⟨?_, covW_full w, covW_lu w,
    fun h => by rw [covW_ord, if_pos h],
    fun h => by rw [covW_ord, h]; simp⟩
  by_cases hm1 : pyUpper method = "FULL"
  · rw [baseMLInit_full o w y x method hm1] at hok
    split at hok
    · rename_i est hfin
      simp only [Except.ok.injEq] at hok
      subst hok
      rw [finalize_some _ _ _ _ _ _ _ _ hfin, hm1, covW_full]
      rfl
    · simp at hok
  · by_cases hm2 : pyUpper method = "LU"
    · rw [baseMLInit_lu o w y x method hm2] at hok
      split at hok
      · rename_i est hfin
        simp only [Except.ok.injEq] at hok
        subst hok
        rw [finalize_some _ _ _ _ _ _ _ _ hfin, hm2, covW_lu]
        rfl
      · simp at hok
    · by_cases hm3 : pyUpper method = "ORD"
      · rw [baseMLInit_ord o w y x method hm3] at hok
        unfold ordRun at hok
        try dsimp only at hok
        by_cases hsym : w.structSym
        · rw [if_pos hsym] at hok
          split at hok
          · rename_i est hfin
            simp only [Except.ok.injEq] at hok
            subst hok
            rw [finalize_some _ _ _ _ _ _ _ _ hfin, hm3, covW_ord, if_pos hsym]
            rfl
          · simp at hok
        · rw [if_neg hsym] at hok
          split at hok
          · rename_i est hfin
            simp only [Except.ok.injEq] at hok
            subst hok
            rw [finalize_some _ _ _ _ _ _ _ _ hfin, hm3, covW_ord, if_neg hsym]
            rfl
          · simp at hok
      · have hnot : ¬ (pyUpper method = "FULL" ∨ pyUpper method = "LU" ∨
            pyUpper method = "ORD") := by
          push_neg
          exact ⟨hm1, hm2, hm3⟩
        unfold baseMLInit at hok
        try dsimp only at hok
        rw [if_neg hnot] at hok
        simp at hok

/-- C10 witness: the concrete "ord" run on a structure whose symmetrized
materialization differs from its dense one — vm1 comes from the symmetrized
matrix. -/
theorem C10_witness :
    ∃ r : Estimates 2 1, baseMLInit oGood wOrd yW xW "ord" = Except.ok r
      ∧ r.vm1 = (vOf wOrd.symmetrized r.lam r.sig2)⁻¹ := by
  refine ⟨_, run_ord_oGood, ?_⟩
  have h := (C10_covariance_W oGood wOrd yW xW "ord" _ run_ord_oGood).1
  rw [h]
  rw [show covW wOrd (pyUpper "ord") = wOrd.symmetrized from by
    rw [show pyUpper "ord" = "ORD" from by decide, covW_ord,
      if_pos (show wOrd.structSym = true from rfl)]]

end SpregML
